import Mathlib

/-!
Shallow embedding of `ceilometer/compute/virt/ovirtga/vmchannels.py`
(the VM channels listener of Ceilometer-oVirt).

Python dictionaries keyed by file descriptors are modelled as association
lists with unique keys; wall-clock readings (`time.time()`) are rational
numbers supplied as explicit arguments; the four caller-supplied callbacks
(`create_cb`, `connect_cb`, `read_cb`, `timeout_cb`) are modelled as
oracles that state, for each invocation, whether the callback returned a
value or raised an exception.
-/

namespace VmChannels

/-- Outcome of one Python callback invocation: a returned value, or an
exception raised by the callback (the code catches these with bare
`except:` clauses). -/
inductive Res (α : Type) where
  | ok (a : α)
  | raises
  deriving Repr, DecidableEq

/-- `COOLDOWN_RECONNECT_THRESHOLD = 5` — how many times a reconnect should
be performed before a cooldown will be applied. -/
def COOLDOWN_RECONNECT_THRESHOLD : Nat := 5

/-- `errno.EINTR`. -/
def EINTR : Nat := 4

/-- A channel record, as built by `Listener.register` and mutated by the
loop.  `register` stores only `read_time` (as `0.0`); the other fields are
absent until first written, and every read of them in the source uses a
default (`obj.get('reconnects', 0)`, `obj.get('timeout_seen', False)`,
`obj.get('cooldown')` which is falsy when absent), so we carry the
defaults explicitly.  `cooldown_time` is only ever read when `cooldown`
is true, which is only set together with `cooldown_time`. -/
structure Chan where
  read_time : ℚ := 0
  timeout_seen : Bool := false
  reconnects : Nat := 0
  cooldown : Bool := false
  cooldown_time : ℚ := 0
  deriving Repr, DecidableEq

/-- A Python dict keyed by file descriptors. -/
abbrev Dict := List (Nat × Chan)

/-- Dictionary lookup (`d.get(k)` / `d[k]`). -/
def dlookup (d : Dict) (k : Nat) : Option Chan :=
  match d with
  | [] => none
  | (k', v) :: rest => if k' = k then some v else dlookup rest k

/-- Dictionary deletion (`d.pop(k, None)` / `del d[k]`). -/
def derase (d : Dict) (k : Nat) : Dict :=
  match d with
  | [] => []
  | (k', v) :: rest => if k' = k then derase rest k else (k', v) :: derase rest k

/-- Dictionary insertion / overwrite (`d[k] = v`). -/
def dinsert (d : Dict) (k : Nat) (v : Chan) : Dict :=
  (k, v) :: derase d k

/-- Membership test (`k in d`). -/
def dmem (d : Dict) (k : Nat) : Bool :=
  (dlookup d k).isSome

/-- The keys of a dict. -/
def dkeys (d : Dict) : List Nat := d.map Prod.fst

/-- A dict has no duplicate keys (always true of a Python dict). -/
def dNodup (d : Dict) : Prop := (dkeys d).Nodup

/-- The mutable state of a `Listener`: the connected channels
(`self._channels`), the unconnected channels (`self._unconnected`), the
pending-add map (`self._add_channels`), the pending-delete list
(`self._del_channels`), the set of descriptors registered with epoll, and
the configured timeout (`self._timeout`). -/
structure LState where
  channels : Dict
  unconnected : Dict
  add_channels : Dict
  del_channels : List Nat
  epoll : List Nat
  timeout : ℚ
  deriving Repr, DecidableEq

/-! ### NoIntrPoll

`NoIntrPoll(pollfun, timeout)` repeatedly calls `pollfun(timeout)` until
it returns, re-raising any `IOError`/`select.error` whose errno is not
`EINTR`.  `endtime` is `None` when the original timeout was negative,
otherwise the original call time plus the timeout; after an `EINTR` with
an `endtime`, the timeout is recomputed as `max(0, endtime - time.time())`.

We embed one `pollfun` call as a trace entry pairing the call's outcome
with the wall-clock reading `time.time()` taken when the timeout is
recomputed after that call.  The embedding returns the list of timeout
arguments passed to `pollfun` together with the final outcome (`none`
when the trace is exhausted with the loop still running). -/

/-- Outcome of one `pollfun(timeout)` call: a normal return carrying the
event list (abstracted to a `Nat`), or an `IOError`/`select.error` whose
`args[0]` is `en`. -/
inductive PollEv where
  | ok (v : Nat)
  | ioerr (en : Nat)
  deriving Repr, DecidableEq

/-- The retry loop of `NoIntrPoll`, parameterised by `endtime`. -/
def noIntrPollGo (endtime : Option ℚ) (timeout : ℚ) :
    List (PollEv × ℚ) → List ℚ × Option (Except Nat Nat)
  | [] => ([], none)
  | (ev, tNow) :: rest =>
    match ev with
    | .ok v => ([timeout], some (.ok v))
    | .ioerr en =>
      if en ≠ EINTR then ([timeout], some (.error en))
      else
        let timeout' := match endtime with
          | none => timeout
          | some d => max 0 (d - tNow)
        let r := noIntrPollGo endtime timeout' rest
        (timeout :: r.1, r.2)

/-- `NoIntrPoll(pollfun, timeout)` called at wall-clock time `t0`.
`endtime = None if timeout < 0 else time.time() + timeout`. -/
def NoIntrPoll (t0 : ℚ) (timeout : ℚ) (trace : List (PollEv × ℚ)) :
    List ℚ × Option (Except Nat Nat) :=
  noIntrPollGo (if timeout < 0 then none else some (t0 + timeout)) timeout trace

/-! ### Listener._prepare_reconnect and Listener._handle_event -/

/-- `Listener._prepare_reconnect(fileno)`: pop the record from the
connected set, clear `timeout_seen`, call `create_cb`; on success insert
the record into the unconnected set under the returned descriptor, on an
exception just log (the record is dropped).  The second component counts
the `create_cb` invocations performed (always exactly one).  Callers only
invoke this with `fileno` present in the connected set; on a missing key
Python's `pop` would raise, which we model as leaving the state unchanged
with no `create_cb` call. -/
def prepare_reconnect (s : LState) (fileno : Nat) (createRes : Res Nat) :
    LState × Nat :=
  match dlookup s.channels fileno with
  | none => (s, 0)
  | some obj =>
    let s' : LState := { s with channels := derase s.channels fileno }
    let obj' : Chan := { obj with timeout_seen := false }
    match createRes with
    | .raises => (s', 1)
    | .ok newf =>
        ({ s' with unconnected := dinsert s'.unconnected newf obj' }, 1)

/-- `Listener._handle_event(fileno, event)`.  `hupErr` models
`event & (EPOLLHUP | EPOLLERR)` being non-zero, `epollin` models
`event & EPOLLIN` being non-zero (the source tests them in that order).
`readRes` is the outcome of the `read_cb` invocation (if one happens),
`createRes` the outcome of the `create_cb` invocation (if one happens),
and `now` the `time.time()` reading stored into `read_time` on a truthy
read.  Returns the new state and the number of `create_cb` calls. -/
def handle_event (s : LState) (fileno : Nat) (hupErr epollin : Bool)
    (readRes : Res Bool) (createRes : Res Nat) (now : ℚ) : LState × Nat :=
  if hupErr then
    if (dlookup s.channels fileno).isSome then
      prepare_reconnect s fileno createRes
    else (s, 0)
  else if epollin then
    match dlookup s.channels fileno with
    | some obj =>
      let obj' : Chan := { obj with timeout_seen := false, reconnects := 0 }
      match readRes with
      | .ok true =>
          ({ s with channels :=
              dinsert s.channels fileno { obj' with read_time := now } }, 0)
      | .ok false =>
          prepare_reconnect
            { s with channels := dinsert s.channels fileno obj' }
            fileno createRes
      | .raises =>
          ({ s with channels := dinsert s.channels fileno obj' }, 0)
    | none => (s, 0)
  else (s, 0)

/-! ### Listener._handle_timeouts -/

/-- The effect of one `_handle_timeouts` loop iteration on the channel
record it visits: if `now - read_time >= timeout`, `timeout_seen` is set,
then `timeout_cb` is called; a normal return also refreshes `read_time`
to `now`, an exception leaves `read_time` alone (the assignment sits
after the call inside the `try`). -/
def timeouts_step_obj (tmo now : ℚ) (tres : Res Unit) (obj : Chan) : Chan :=
  if tmo ≤ now - obj.read_time then
    let obj' : Chan := { obj with timeout_seen := true }
    match tres with
    | .ok _ => { obj' with read_time := now }
    | .raises => obj'
  else obj

/-- The `_handle_timeouts` sweep over a snapshot of `self._channels`
(`.items()`), threading the state. -/
def handle_timeouts_go (tmo now : ℚ) (tres : Nat → Res Unit) :
    List (Nat × Chan) → LState → LState
  | [], s => s
  | (fileno, obj) :: rest, s =>
    let s' :=
      if tmo ≤ now - obj.read_time then
        { s with channels :=
            dinsert s.channels fileno (timeouts_step_obj tmo now (tres fileno) obj) }
      else s
    handle_timeouts_go tmo now tres rest s'

/-- `Listener._handle_timeouts()` at wall-clock time `now`, with `tres`
giving the outcome of each channel's `timeout_cb` invocation. -/
def handle_timeouts (s : LState) (now : ℚ) (tres : Nat → Res Unit) : LState :=
  handle_timeouts_go s.timeout now tres s.channels s

/-! ### Listener._handle_unconnected -/

/-- The record stored back into the unconnected set by one
`_handle_unconnected` loop iteration, or `none` when the record leaves
the unconnected set (successful connect).  `tmo` is `self._timeout`,
`now` the sweep's `time.time()` reading used for the cooldown check,
`cres` the `connect_cb` outcome, `tA` the `time.time()` reading taken
inside the iteration (stored into `cooldown_time` on entering cooldown).
Mirrors the loop body: a channel in cooldown whose interval has not
elapsed is skipped (`continue`); otherwise cooldown is cleared (if set)
and `connect_cb` is attempted: an exception only logs, success removes
the record from the unconnected set, failure increments `reconnects` and
enters cooldown at the threshold. -/
def unconn_obj_after (tmo now : ℚ) (cres : Res Bool) (tA : ℚ) (obj : Chan) :
    Option Chan :=
  if obj.cooldown ∧ now - obj.cooldown_time < tmo then some obj
  else
    let obj1 : Chan := if obj.cooldown then { obj with cooldown := false } else obj
    match cres with
    | .raises => some obj1
    | .ok true => none
    | .ok false =>
      let obj2 : Chan := { obj1 with reconnects := obj1.reconnects + 1 }
      if COOLDOWN_RECONNECT_THRESHOLD ≤ obj2.reconnects then
        some { obj2 with cooldown_time := tA, cooldown := true }
      else some obj2

/-- One `_handle_unconnected` loop iteration, threading the listener
state: skip a cooling-down channel, otherwise attempt `connect_cb`;
success deletes the record from the unconnected set, stores it in the
connected set with `read_time` refreshed and registers the descriptor
with epoll; failure or an exception writes the updated record back. -/
def unconn_step (tmo now : ℚ) (cres : Res Bool) (tA : ℚ)
    (fileno : Nat) (obj : Chan) (s : LState) : LState :=
  if obj.cooldown ∧ now - obj.cooldown_time < tmo then s
  else
    let obj1 : Chan := if obj.cooldown then { obj with cooldown := false } else obj
    match cres with
    | .raises => { s with unconnected := dinsert s.unconnected fileno obj1 }
    | .ok true =>
        { s with unconnected := derase s.unconnected fileno,
                 channels := dinsert s.channels fileno { obj1 with read_time := tA },
                 epoll := fileno :: s.epoll }
    | .ok false =>
      let obj2 : Chan := { obj1 with reconnects := obj1.reconnects + 1 }
      let obj3 : Chan :=
        if COOLDOWN_RECONNECT_THRESHOLD ≤ obj2.reconnects then
          { obj2 with cooldown_time := tA, cooldown := true }
        else obj2
      { s with unconnected := dinsert s.unconnected fileno obj3 }

/-- The `_handle_unconnected` sweep over a snapshot of
`self._unconnected` (`.items()`). -/
def handle_unconnected_go (tmo now : ℚ) (cres : Nat → Res Bool) (tAt : Nat → ℚ) :
    List (Nat × Chan) → LState → LState
  | [], s => s
  | (fileno, obj) :: rest, s =>
    handle_unconnected_go tmo now cres tAt rest
      (unconn_step tmo now (cres fileno) (tAt fileno) fileno obj s)

/-- `Listener._handle_unconnected()` at sweep time `now`; `cres` gives
each channel's `connect_cb` outcome and `tAt` the inner `time.time()`
reading taken for that channel. -/
def handle_unconnected (s : LState) (now : ℚ) (cres : Nat → Res Bool)
    (tAt : Nat → ℚ) : LState :=
  handle_unconnected_go s.timeout now cres tAt s.unconnected s

/-! ### Listener._do_add_channels, _do_del_channels, _update_channels -/

/-- `Listener._do_add_channels()`: move every pending-add entry into the
unconnected set, then clear the pending-add map.  The epoll registration
is not touched. -/
def do_add_channels (s : LState) : LState :=
  { s with
    unconnected :=
      s.add_channels.foldl (fun u p => dinsert u p.1 p.2) s.unconnected,
    add_channels := [] }

/-- `Listener._do_del_channels()`: pop every pending-delete descriptor
from the pending-add map, the unconnected set and the connected set,
then clear the pending-delete list.  The epoll registration is not
touched. -/
def do_del_channels (s : LState) : LState :=
  { s with
    add_channels := s.del_channels.foldl derase s.add_channels,
    unconnected := s.del_channels.foldl derase s.unconnected,
    channels := s.del_channels.foldl derase s.channels,
    del_channels := [] }

/-- `Listener._update_channels()`: under the mutex, `_do_add_channels`
then `_do_del_channels`. -/
def update_channels (s : LState) : LState :=
  do_del_channels (do_add_channels s)

/-! ### The registry invariant -/

/-- At most one of three booleans is true. -/
def AtMostOne (a b c : Bool) : Prop :=
  a.toNat + b.toNat + c.toNat ≤ 1

/-- The registry invariant: each descriptor key exists in at most one of
the connected set, the unconnected set and the pending-add map. -/
def Disjoint3 (s : LState) : Prop :=
  ∀ f : Nat,
    AtMostOne (dmem s.channels f) (dmem s.unconnected f) (dmem s.add_channels f)

instance (s : LState) (f : Nat) :
    Decidable (AtMostOne (dmem s.channels f) (dmem s.unconnected f)
      (dmem s.add_channels f)) := by
  unfold AtMostOne; infer_instance

/-! ### Dictionary lemmas -/

theorem dlookup_derase_self (d : Dict) (k : Nat) :
    dlookup (derase d k) k = none := by
  induction d with
  | nil => rfl
  | cons p rest ih =>
    obtain ⟨k', v⟩ := p
    by_cases h : k' = k
    · simpa [derase, h] using ih
    · simpa [derase, dlookup, h] using ih

theorem dlookup_derase_ne (d : Dict) (k k' : Nat) (h : k' ≠ k) :
    dlookup (derase d k) k' = dlookup d k' := by
  induction d with
  | nil => rfl
  | cons p rest ih =>
    obtain ⟨k₀, v⟩ := p
    by_cases h0 : k₀ = k
    · simpa [derase, dlookup, h0, Ne.symm h] using ih
    · by_cases h1 : k₀ = k'
      · simp [derase, dlookup, h0, h1, h]
      · simpa [derase, dlookup, h0, h1] using ih

theorem dlookup_dinsert_self (d : Dict) (k : Nat) (v : Chan) :
    dlookup (dinsert d k v) k = some v := by
  simp [dinsert, dlookup]

theorem dlookup_dinsert_ne (d : Dict) (k k' : Nat) (v : Chan) (h : k' ≠ k) :
    dlookup (dinsert d k v) k' = dlookup d k' := by
  simp only [dinsert, dlookup, if_neg (Ne.symm h)]
  exact dlookup_derase_ne d k k' h

theorem dmem_derase (d : Dict) (k k' : Nat) :
    dmem (derase d k) k' = (decide (k' ≠ k) && dmem d k') := by
  by_cases h : k' = k
  · simp [dmem, h, dlookup_derase_self]
  · simp [dmem, h, dlookup_derase_ne d k k' h]

theorem dmem_dinsert (d : Dict) (k k' : Nat) (v : Chan) :
    dmem (dinsert d k v) k' = (decide (k' = k) || dmem d k') := by
  by_cases h : k' = k
  · simp [dmem, h, dlookup_dinsert_self]
  · simp [dmem, h, dlookup_dinsert_ne d k k' v h]

theorem dlookup_mem (d : Dict) (k : Nat) (v : Chan)
    (h : dlookup d k = some v) : (k, v) ∈ d := by
  induction d with
  | nil => simp [dlookup] at h
  | cons p rest ih =>
    obtain ⟨k', v'⟩ := p
    by_cases h0 : k' = k
    · subst h0
      simp [dlookup] at h
      obtain rfl := h
      exact List.mem_cons_self _ _
    · simp only [dlookup, if_neg h0] at h
      exact List.mem_cons_of_mem _ (ih h)

theorem mem_dkeys_of_dlookup (d : Dict) (k : Nat) (v : Chan)
    (h : dlookup d k = some v) : k ∈ dkeys d := by
  have := dlookup_mem d k v h
  exact List.mem_map.mpr ⟨(k, v), this, rfl⟩

theorem dlookup_eq_none_of_not_mem (d : Dict) (k : Nat)
    (h : k ∉ dkeys d) : dlookup d k = none := by
  cases hl : dlookup d k with
  | none => rfl
  | some v => exact absurd (mem_dkeys_of_dlookup d k v hl) h

theorem dlookup_of_mem_nodup (d : Dict) (k : Nat) (v : Chan)
    (hnd : dNodup d) (h : (k, v) ∈ d) : dlookup d k = some v := by
  induction d with
  | nil => simp at h
  | cons p rest ih =>
    obtain ⟨k', v'⟩ := p
    rcases List.mem_cons.mp h with h | h
    · simp only [Prod.mk.injEq] at h
      obtain ⟨rfl, rfl⟩ := h
      simp [dlookup]
    · have hk : k' ≠ k := by
        intro he
        subst he
        have hm : k' ∈ dkeys rest :=
          List.mem_map.mpr ⟨(k', v), h, rfl⟩
        exact (List.nodup_cons.mp (by exact hnd)).1 hm
      simp only [dlookup, if_neg hk]
      exact ih (List.nodup_cons.mp (by exact hnd)).2 h

theorem dlookup_foldl_derase (L : List Nat) (d : Dict) (k : Nat) :
    dlookup (L.foldl derase d) k = if k ∈ L then none else dlookup d k := by
  induction L generalizing d with
  | nil => simp
  | cons a rest ih =>
    by_cases h : k = a
    · subst h
      by_cases hr : k ∈ rest
      · simp [List.foldl, ih, hr]
      · simp [List.foldl, ih, hr, dlookup_derase_self]
    · by_cases hr : k ∈ rest
      · simp [List.foldl, ih, hr, h]
      · simp [List.foldl, ih, hr, h, dlookup_derase_ne d a k h]

theorem dlookup_foldl_dinsert_of_not_mem (L : List (Nat × Chan)) (u : Dict)
    (k : Nat) (h : k ∉ dkeys L) :
    dlookup (L.foldl (fun u p => dinsert u p.1 p.2) u) k = dlookup u k := by
  induction L generalizing u with
  | nil => rfl
  | cons p rest ih =>
    obtain ⟨k', v⟩ := p
    have hk : k ≠ k' := by
      intro he
      exact h (by simp [dkeys, he])
    have hrest : k ∉ dkeys rest := by
      intro hm
      exact h (by simp [dkeys] at hm ⊢; exact Or.inr hm)
    simp only [List.foldl]
    rw [ih _ hrest, dlookup_dinsert_ne _ _ _ _ hk]

theorem dlookup_foldl_dinsert_of_mem (L : List (Nat × Chan)) :
    ∀ (u : Dict) (k : Nat) (v : Chan), (dkeys L).Nodup → (k, v) ∈ L →
      dlookup (L.foldl (fun u p => dinsert u p.1 p.2) u) k = some v := by
  induction L with
  | nil =>
    intro u k v _ h
    simp at h
  | cons p rest ih =>
    intro u k v hnd h
    obtain ⟨k', v'⟩ := p
    rcases List.mem_cons.mp h with hh | hh
    · simp only [Prod.mk.injEq] at hh
      obtain ⟨rfl, rfl⟩ := hh
      have hk : k ∉ dkeys rest := (List.nodup_cons.mp (by exact hnd)).1
      simp only [List.foldl]
      rw [dlookup_foldl_dinsert_of_not_mem rest _ k hk,
        dlookup_dinsert_self]
    · simp only [List.foldl]
      exact ih _ k v (List.nodup_cons.mp (by exact hnd)).2 hh

theorem dmem_foldl_dinsert (L : List (Nat × Chan)) (u : Dict) (k : Nat) :
    dmem (L.foldl (fun u p => dinsert u p.1 p.2) u) k =
      (dmem u k || decide (k ∈ dkeys L)) := by
  induction L generalizing u with
  | nil => simp [dkeys]
  | cons p rest ih =>
    obtain ⟨k', v⟩ := p
    simp only [List.foldl]
    rw [ih, dmem_dinsert]
    by_cases h : k = k'
    · simp [dkeys, h]
    · have hb : (k == k') = false := by simpa using h
      simp [dkeys, h, hb]

/-! ### Sweep lemmas for `_handle_timeouts` -/

theorem handle_timeouts_go_channels_not_mem (tmo now : ℚ) (tres : Nat → Res Unit)
    (f : Nat) :
    ∀ (L : List (Nat × Chan)) (s : LState), f ∉ dkeys L →
      dlookup (handle_timeouts_go tmo now tres L s).channels f =
        dlookup s.channels f := by
  intro L
  induction L with
  | nil =>
    intro s _
    rfl
  | cons p rest ih =>
    intro s hf
    obtain ⟨g, objg⟩ := p
    have hgf : g ≠ f := by
      intro he
      exact hf (by simp [dkeys, he])
    have hrest : f ∉ dkeys rest := by
      intro hm
      exact hf (by simp [dkeys] at hm ⊢; exact Or.inr hm)
    simp only [handle_timeouts_go]
    rw [ih _ hrest]
    by_cases he : tmo ≤ now - objg.read_time
    · simp only [if_pos he]
      exact dlookup_dinsert_ne _ _ _ _ (Ne.symm hgf)
    · simp only [if_neg he]

theorem handle_timeouts_go_channels_at (tmo now : ℚ) (tres : Nat → Res Unit)
    (f : Nat) (obj : Chan) :
    ∀ (L : List (Nat × Chan)) (s : LState), (dkeys L).Nodup → (f, obj) ∈ L →
      dlookup (handle_timeouts_go tmo now tres L s).channels f =
        if tmo ≤ now - obj.read_time
        then some (timeouts_step_obj tmo now (tres f) obj)
        else dlookup s.channels f := by
  intro L
  induction L with
  | nil =>
    intro s _ h
    simp at h
  | cons p rest ih =>
    intro s hnd h
    obtain ⟨g, objg⟩ := p
    rcases List.mem_cons.mp h with hh | hh
    · simp only [Prod.mk.injEq] at hh
      obtain ⟨rfl, rfl⟩ := hh
      have hrest : f ∉ dkeys rest := (List.nodup_cons.mp (by exact hnd)).1
      simp only [handle_timeouts_go]
      rw [handle_timeouts_go_channels_not_mem tmo now tres f rest _ hrest]
      by_cases he : tmo ≤ now - obj.read_time
      · simp only [if_pos he]
        exact dlookup_dinsert_self _ _ _
      · simp only [if_neg he]
    · have hgnotin : g ∉ dkeys rest :=
        (List.nodup_cons.mp (show (g :: dkeys rest).Nodup from hnd)).1
      have hgf : g ≠ f := by
        intro he
        rw [he] at hgnotin
        exact hgnotin (List.mem_map.mpr ⟨(f, obj), hh, rfl⟩)
      simp only [handle_timeouts_go]
      rw [ih _ (List.nodup_cons.mp (show (g :: dkeys rest).Nodup from hnd)).2 hh]
      by_cases he : tmo ≤ now - objg.read_time
      · simp only [if_pos he]
        by_cases he2 : tmo ≤ now - obj.read_time
        · simp only [if_pos he2]
        · simp only [if_neg he2]
          exact dlookup_dinsert_ne _ _ _ _ (Ne.symm hgf)
      · simp only [if_neg he]

/-! ### Sweep lemmas for `_handle_unconnected` -/

/-- The connected-set record produced for a descriptor by its own
`_handle_unconnected` iteration (`none` when the iteration leaves the
connected set alone at that descriptor). -/
def unconn_chan_after (tmo now : ℚ) (cres : Res Bool) (tA : ℚ) (obj : Chan) :
    Option Chan :=
  if obj.cooldown ∧ now - obj.cooldown_time < tmo then none
  else
    let obj1 : Chan := if obj.cooldown then { obj with cooldown := false } else obj
    match cres with
    | .ok true => some { obj1 with read_time := tA }
    | _ => none

theorem unconn_step_lookup_ne (tmo now : ℚ) (cres : Res Bool) (tA : ℚ)
    (g : Nat) (objg : Chan) (s : LState) (f : Nat) (h : g ≠ f) :
    dlookup (unconn_step tmo now cres tA g objg s).unconnected f =
      dlookup s.unconnected f ∧
    dlookup (unconn_step tmo now cres tA g objg s).channels f =
      dlookup s.channels f := by
  by_cases hc : objg.cooldown ∧ now - objg.cooldown_time < tmo
  · simp [unconn_step, hc]
  · rcases cres with b | _
    · rcases b with _ | _
      · simp [unconn_step, hc, dlookup_dinsert_ne _ _ _ _ (Ne.symm h)]
      · simp [unconn_step, hc, dlookup_dinsert_ne _ _ _ _ (Ne.symm h),
          dlookup_derase_ne _ _ _ (Ne.symm h)]
    · simp [unconn_step, hc, dlookup_dinsert_ne _ _ _ _ (Ne.symm h)]

theorem handle_unconnected_go_not_mem (tmo now : ℚ) (cres : Nat → Res Bool)
    (tAt : Nat → ℚ) (f : Nat) :
    ∀ (L : List (Nat × Chan)) (s : LState), f ∉ dkeys L →
      dlookup (handle_unconnected_go tmo now cres tAt L s).unconnected f =
        dlookup s.unconnected f ∧
      dlookup (handle_unconnected_go tmo now cres tAt L s).channels f =
        dlookup s.channels f := by
  intro L
  induction L with
  | nil =>
    intro s _
    exact ⟨rfl, rfl⟩
  | cons p rest ih =>
    intro s hf
    obtain ⟨g, objg⟩ := p
    have hgf : g ≠ f := by
      intro he
      exact hf (by simp [dkeys, he])
    have hrest : f ∉ dkeys rest := by
      intro hm
      exact hf (by simp [dkeys] at hm ⊢; exact Or.inr hm)
    simp only [handle_unconnected_go]
    obtain ⟨h1, h2⟩ := ih (unconn_step tmo now (cres g) (tAt g) g objg s) hrest
    obtain ⟨h3, h4⟩ :=
      unconn_step_lookup_ne tmo now (cres g) (tAt g) g objg s f hgf
    exact ⟨h1.trans h3, h2.trans h4⟩

theorem unconn_step_lookup_self (tmo now : ℚ) (cres : Res Bool) (tA : ℚ)
    (f : Nat) (obj : Chan) (s : LState)
    (hs : dlookup s.unconnected f = some obj) :
    dlookup (unconn_step tmo now cres tA f obj s).unconnected f =
      unconn_obj_after tmo now cres tA obj ∧
    dlookup (unconn_step tmo now cres tA f obj s).channels f =
      (match unconn_chan_after tmo now cres tA obj with
       | none => dlookup s.channels f
       | some o => some o) := by
  rcases hcd : obj.cooldown with _ | _
  · rcases cres with b | _
    · rcases b with _ | _
      · by_cases hthr : COOLDOWN_RECONNECT_THRESHOLD ≤ obj.reconnects + 1
        · simp [unconn_step, unconn_obj_after, unconn_chan_after, hcd, hthr,
            dlookup_dinsert_self]
        · simp [unconn_step, unconn_obj_after, unconn_chan_after, hcd, hthr,
            dlookup_dinsert_self]
      · simp [unconn_step, unconn_obj_after, unconn_chan_after, hcd,
          dlookup_dinsert_self, dlookup_derase_self]
    · simp [unconn_step, unconn_obj_after, unconn_chan_after, hcd,
        dlookup_dinsert_self]
  · by_cases hsk : now - obj.cooldown_time < tmo
    · simp [unconn_step, unconn_obj_after, unconn_chan_after, hcd, hsk, hs]
    · rcases cres with b | _
      · rcases b with _ | _
        · by_cases hthr : COOLDOWN_RECONNECT_THRESHOLD ≤ obj.reconnects + 1
          · simp [unconn_step, unconn_obj_after, unconn_chan_after, hcd, hsk,
              hthr, dlookup_dinsert_self]
          · simp [unconn_step, unconn_obj_after, unconn_chan_after, hcd, hsk,
              hthr, dlookup_dinsert_self]
        · simp [unconn_step, unconn_obj_after, unconn_chan_after, hcd, hsk,
            dlookup_dinsert_self, dlookup_derase_self]
      · simp [unconn_step, unconn_obj_after, unconn_chan_after, hcd, hsk,
          dlookup_dinsert_self]

theorem handle_unconnected_go_at (tmo now : ℚ) (cres : Nat → Res Bool)
    (tAt : Nat → ℚ) (f : Nat) (obj : Chan) :
    ∀ (L : List (Nat × Chan)) (s : LState), (dkeys L).Nodup → (f, obj) ∈ L →
      dlookup s.unconnected f = some obj →
      dlookup (handle_unconnected_go tmo now cres tAt L s).unconnected f =
        unconn_obj_after tmo now (cres f) (tAt f) obj ∧
      dlookup (handle_unconnected_go tmo now cres tAt L s).channels f =
        (match unconn_chan_after tmo now (cres f) (tAt f) obj with
         | none => dlookup s.channels f
         | some o => some o) := by
  intro L
  induction L with
  | nil =>
    intro s _ h _
    simp at h
  | cons p rest ih =>
    intro s hnd h hs
    obtain ⟨g, objg⟩ := p
    rcases List.mem_cons.mp h with hh | hh
    · simp only [Prod.mk.injEq] at hh
      obtain ⟨rfl, rfl⟩ := hh
      have hrest : f ∉ dkeys rest := (List.nodup_cons.mp (by exact hnd)).1
      simp only [handle_unconnected_go]
      obtain ⟨h1, h2⟩ := handle_unconnected_go_not_mem tmo now cres tAt f rest
        (unconn_step tmo now (cres f) (tAt f) f obj s) hrest
      obtain ⟨h3, h4⟩ :=
        unconn_step_lookup_self tmo now (cres f) (tAt f) f obj s hs
      exact ⟨h1.trans h3, h2.trans h4⟩
    · have hgnotin : g ∉ dkeys rest :=
        (List.nodup_cons.mp (show (g :: dkeys rest).Nodup from hnd)).1
      have hgf : g ≠ f := by
        intro he
        rw [he] at hgnotin
        exact hgnotin (List.mem_map.mpr ⟨(f, obj), hh, rfl⟩)
      simp only [handle_unconnected_go]
      obtain ⟨h3, h4⟩ :=
        unconn_step_lookup_ne tmo now (cres g) (tAt g) g objg s f hgf
      obtain ⟨h1, h2⟩ := ih (unconn_step tmo now (cres g) (tAt g) g objg s)
        (List.nodup_cons.mp (show (g :: dkeys rest).Nodup from hnd)).2 hh
        (h3.trans hs)
      refine ⟨h1, h2.trans ?_⟩
      cases unconn_chan_after tmo now (cres f) (tAt f) obj with
      | none => exact h4
      | some o => rfl

/-! ### Claim C4 -/

/-- C4: for an unconnected channel (with `dNodup` modelling the Python
dict's unique keys), (a)/(b) a false `connect_cb` return increments
`reconnects`, and when the incremented counter reaches the threshold 5
the channel enters cooldown with `cooldown_time` set to the current time;
(c) a channel in cooldown whose interval has not yet elapsed is left
untouched, with no promotion to the connected set, whatever the connect
oracle says (no `connect_cb` call); (d1)/(d2) once the configured timeout
interval has elapsed since `cooldown_time`, cooldown is cleared and
exactly one connect attempt happens in that same sweep: success promotes
the channel, failure re-enters cooldown with a fresh `cooldown_time`. -/
theorem C4_cooldown_state_machine (s : LState) (now : ℚ)
    (cres : Nat → Res Bool) (tAt : Nat → ℚ) (f : Nat) (obj : Chan)
    (hnd : dNodup s.unconnected)
    (hf : dlookup s.unconnected f = some obj) :
    (obj.cooldown = false → cres f = Res.ok false → obj.reconnects + 1 < 5 →
      dlookup (handle_unconnected s now cres tAt).unconnected f =
        some { obj with reconnects := obj.reconnects + 1 }) ∧
    (obj.cooldown = false → cres f = Res.ok false → 5 ≤ obj.reconnects + 1 →
      dlookup (handle_unconnected s now cres tAt).unconnected f =
        some { obj with reconnects := obj.reconnects + 1,
                        cooldown := true, cooldown_time := tAt f }) ∧
    (obj.cooldown = true → now - obj.cooldown_time < s.timeout →
      dlookup (handle_unconnected s now cres tAt).unconnected f = some obj ∧
      dlookup (handle_unconnected s now cres tAt).channels f =
        dlookup s.channels f) ∧
    (obj.cooldown = true → s.timeout ≤ now - obj.cooldown_time →
      cres f = Res.ok true →
      dlookup (handle_unconnected s now cres tAt).unconnected f = none ∧
      dlookup (handle_unconnected s now cres tAt).channels f =
        some { obj with cooldown := false, read_time := tAt f }) ∧
    (obj.cooldown = true → s.timeout ≤ now - obj.cooldown_time →
      cres f = Res.ok false → 5 ≤ obj.reconnects + 1 →
      dlookup (handle_unconnected s now cres tAt).unconnected f =
        some { obj with reconnects := obj.reconnects + 1,
                        cooldown := true, cooldown_time := tAt f }) := by
  obtain ⟨hu, hch⟩ := handle_unconnected_go_at s.timeout now cres tAt f obj
    s.unconnected s hnd (dlookup_mem _ _ _ hf) hf
  rw [handle_unconnected] at *
  refine ⟨?_, ?_, ?_, ?_, ?_⟩
  · intro hcd hcr hlt
    rw [hu]
    simp [unconn_obj_after, hcd, hcr, COOLDOWN_RECONNECT_THRESHOLD,
      Nat.not_le.mpr hlt]
  · intro hcd hcr hge
    rw [hu]
    simp [unconn_obj_after, hcd, hcr, COOLDOWN_RECONNECT_THRESHOLD, hge]
  · intro hcd hlt
    constructor
    · rw [hu]
      simp [unconn_obj_after, hcd, hlt]
    · rw [hch]
      simp [unconn_chan_after, hcd, hlt]
  · intro hcd hge hcr
    have hnlt : ¬ (now - obj.cooldown_time < s.timeout) := not_lt.mpr hge
    constructor
    · rw [hu]
      simp [unconn_obj_after, hnlt, hcr, hcd]
    · rw [hch]
      simp [unconn_chan_after, hnlt, hcr, hcd]
  · intro hcd hge hcr hthr
    have hnlt : ¬ (now - obj.cooldown_time < s.timeout) := not_lt.mpr hge
    rw [hu]
    simp [unconn_obj_after, hnlt, hcr, hcd, COOLDOWN_RECONNECT_THRESHOLD, hthr]

/-- C4 witness: a channel with 4 failures so far fails a 5th time and
enters cooldown with `cooldown_time` recorded at the attempt time. -/
theorem C4_witness :
    dlookup (handle_unconnected
        { channels := [], unconnected := [(3, { reconnects := 4 })],
          add_channels := [], del_channels := [], epoll := [], timeout := 2 }
        10 (fun _ => Res.ok false) (fun _ => 11)).unconnected 3 =
      some { reconnects := 5, cooldown := true, cooldown_time := 11 } :=
  (C4_cooldown_state_machine
    { channels := [], unconnected := [(3, { reconnects := 4 })],
      add_channels := [], del_channels := [], epoll := [], timeout := 2 }
    10 (fun _ => Res.ok false) (fun _ => 11) 3 { reconnects := 4 }
    (by simp [dNodup, dkeys])
    (by norm_num [dlookup])).2.1 rfl rfl (by norm_num)

/-! ### Claim C9 -/

/-- C9 (amended): when `connect_cb` raises during the unconnected sweep,
the exception is caught (the sweep returns normally and every other
channel still receives its per-entry treatment), but the raising attempt
is NOT counted as a connect failure: the channel's `reconnects` counter
is left unchanged (only a pending cooldown flag, already due for
clearing, is cleared), so the exception does not advance the channel
toward the cooldown threshold. -/
theorem C9_connect_exception_not_counted (s : LState) (now : ℚ)
    (cres : Nat → Res Bool) (tAt : Nat → ℚ) (f : Nat) (obj : Chan)
    (hnd : dNodup s.unconnected)
    (hf : dlookup s.unconnected f = some obj)
    (hraises : cres f = Res.raises)
    (hnoskip : ¬ (obj.cooldown ∧ now - obj.cooldown_time < s.timeout)) :
    dlookup (handle_unconnected s now cres tAt).unconnected f =
      some (if obj.cooldown then { obj with cooldown := false } else obj) ∧
    ((if obj.cooldown then { obj with cooldown := false } else obj) : Chan).reconnects
      = obj.reconnects ∧
    (∀ g objg, dlookup s.unconnected g = some objg →
      dlookup (handle_unconnected s now cres tAt).unconnected g =
        unconn_obj_after s.timeout now (cres g) (tAt g) objg) := by
  refine ⟨?_, by cases obj.cooldown <;> rfl, ?_⟩
  · obtain ⟨hu, _⟩ := handle_unconnected_go_at s.timeout now cres tAt f obj
      s.unconnected s hnd (dlookup_mem _ _ _ hf) hf
    rw [handle_unconnected] at *
    rw [hu]
    simp [unconn_obj_after, hnoskip, hraises]
  · intro g objg hg
    obtain ⟨hu, _⟩ := handle_unconnected_go_at s.timeout now cres tAt g objg
      s.unconnected s hnd (dlookup_mem _ _ _ hg) hg
    exact hu

/-- C9 counterexample: a fresh unconnected channel (counter 0) whose
`connect_cb` raises keeps `reconnects = 0` after the sweep, while the
claim demands the counter be incremented to 1 exactly as for a false
return. -/
theorem C9_counterexample :
    (dlookup (handle_unconnected
        { channels := [], unconnected := [(3, {})], add_channels := [],
          del_channels := [], epoll := [], timeout := 1 }
        10 (fun _ => Res.raises) (fun _ => 10)).unconnected 3).map Chan.reconnects
      = some 0 ∧ (0 : Nat) ≠ 1 := by
  constructor
  · norm_num [handle_unconnected, handle_unconnected_go, unconn_step,
      dlookup, dinsert, derase]
  · norm_num

/-- C9 witness: the amended theorem applied to a concrete state. -/
theorem C9_witness :
    dlookup (handle_unconnected
        { channels := [], unconnected := [(3, { reconnects := 2 })],
          add_channels := [], del_channels := [], epoll := [], timeout := 1 }
        10 (fun _ => Res.raises) (fun _ => 10)).unconnected 3 =
      some { reconnects := 2 } :=
  (C9_connect_exception_not_counted
    { channels := [], unconnected := [(3, { reconnects := 2 })],
      add_channels := [], del_channels := [], epoll := [], timeout := 1 }
    10 (fun _ => Res.raises) (fun _ => 10) 3 { reconnects := 2 }
    (by simp [dNodup, dkeys])
    (by norm_num [dlookup])
    rfl
    (by norm_num)).1

/-! ### Claim C1 -/

/-- C1 (amended): when a dispatched input-available (EPOLLIN) event hits a
descriptor in the connected set and `read_cb` raises, the exception is
caught (the handler returns normally) and merely logged, but the channel
is NOT marked for reconnect: it stays in the connected set (with
`timeout_seen`/`reconnects` reset), the unconnected set is untouched, and
`create_cb` is never invoked.  Reconnect is triggered only by a false
return from `read_cb`. -/
theorem C1_read_exception_keeps_connected (s : LState) (f : Nat) (obj : Chan)
    (createRes : Res Nat) (now : ℚ)
    (hf : dlookup s.channels f = some obj) :
    (handle_event s f false true Res.raises createRes now).1.channels =
      dinsert s.channels f { obj with timeout_seen := false, reconnects := 0 } ∧
    (handle_event s f false true Res.raises createRes now).1.unconnected =
      s.unconnected ∧
    (handle_event s f false true Res.raises createRes now).2 = 0 := by
  simp [handle_event, hf]

/-- C1 counterexample: a connected channel at descriptor 5 whose `read_cb`
raises is NOT removed from the connected set, `create_cb` is NOT invoked,
and nothing is inserted into the unconnected set — contrary to the
claim's "marked for reconnect" behaviour. -/
theorem C1_counterexample :
    dmem (handle_event
        { channels := [(5, {})], unconnected := [], add_channels := [],
          del_channels := [], epoll := [], timeout := 1 }
        5 false true Res.raises (Res.ok 7) 1).1.channels 5 = true ∧
    (handle_event
        { channels := [(5, {})], unconnected := [], add_channels := [],
          del_channels := [], epoll := [], timeout := 1 }
        5 false true Res.raises (Res.ok 7) 1).1.unconnected = [] ∧
    (handle_event
        { channels := [(5, {})], unconnected := [], add_channels := [],
          del_channels := [], epoll := [], timeout := 1 }
        5 false true Res.raises (Res.ok 7) 1).2 = 0 := by
  norm_num [handle_event, prepare_reconnect, dmem, dlookup, dinsert, derase]

/-- C1 witness: the amended theorem applied to a concrete state. -/
theorem C1_witness :
    (handle_event
        { channels := [(9, {})], unconnected := [], add_channels := [],
          del_channels := [], epoll := [], timeout := 1 }
        9 false true Res.raises (Res.ok 4) 2).1.unconnected = [] :=
  (C1_read_exception_keeps_connected
    { channels := [(9, {})], unconnected := [], add_channels := [],
      del_channels := [], epoll := [], timeout := 1 }
    9 {} (Res.ok 4) 2 (by norm_num [dlookup])).2.1

/-! ### Claim C2 -/

/-- C2 (amended): during the timeout sweep, for a connected channel whose
time since last read meets the threshold, an exception from `timeout_cb`
is caught (the sweep returns normally and every channel still receives
its per-entry treatment), `timeout_seen` is set, but `read_time` is NOT
refreshed to the sweep time — the assignment sits after the callback call
inside the `try` — so the very next sweep calls `timeout_cb` again. -/
theorem C2_timeout_exception_no_refresh (s : LState) (now : ℚ)
    (tres : Nat → Res Unit) (f : Nat) (obj : Chan)
    (hnd : dNodup s.channels)
    (hf : dlookup s.channels f = some obj)
    (helapsed : s.timeout ≤ now - obj.read_time)
    (hraises : tres f = Res.raises) :
    dlookup (handle_timeouts s now tres).channels f =
      some { obj with timeout_seen := true } ∧
    ({ obj with timeout_seen := true } : Chan).read_time = obj.read_time ∧
    (∀ g objg, dlookup s.channels g = some objg →
      dlookup (handle_timeouts s now tres).channels g =
        if s.timeout ≤ now - objg.read_time
        then some (timeouts_step_obj s.timeout now (tres g) objg)
        else some objg) := by
  refine ⟨?_, rfl, ?_⟩
  · rw [handle_timeouts,
      handle_timeouts_go_channels_at s.timeout now tres f obj s.channels s hnd
        (dlookup_mem _ _ _ hf), if_pos helapsed]
    simp [timeouts_step_obj, helapsed, hraises]
  · intro g objg hg
    rw [handle_timeouts,
      handle_timeouts_go_channels_at s.timeout now tres g objg s.channels s hnd
        (dlookup_mem _ _ _ hg)]
    by_cases he : s.timeout ≤ now - objg.read_time
    · simp [he]
    · simp [he, hg]

/-- C2 counterexample: sweep at time 10 with threshold 1 over a channel
whose `read_time` is 0 and whose `timeout_cb` raises — `read_time` stays
0 instead of being refreshed to the sweep time 10. -/
theorem C2_counterexample :
    (dlookup (handle_timeouts
        { channels := [(1, {})], unconnected := [], add_channels := [],
          del_channels := [], epoll := [], timeout := 1 }
        10 (fun _ => Res.raises)).channels 1).map Chan.read_time = some 0 ∧
    (0 : ℚ) ≠ 10 := by
  constructor
  · norm_num [handle_timeouts, handle_timeouts_go, timeouts_step_obj, dlookup]
  · norm_num

/-- C2 witness: the amended theorem applied to a concrete state. -/
theorem C2_witness :
    dlookup (handle_timeouts
        { channels := [(1, {})], unconnected := [], add_channels := [],
          del_channels := [], epoll := [], timeout := 1 }
        10 (fun _ => Res.raises)).channels 1 =
      some { timeout_seen := true } :=
  (C2_timeout_exception_no_refresh
    { channels := [(1, {})], unconnected := [], add_channels := [],
      del_channels := [], epoll := [], timeout := 1 }
    10 (fun _ => Res.raises) 1 {}
    (by simp [dNodup, dkeys])
    (by norm_num [dlookup])
    (by norm_num)
    rfl).1

/-! ### Claim C7 -/

/-- C7: when `read_cb` returns false on a connected channel and
`create_cb` does not raise, `create_cb` is invoked exactly once, the
channel is removed from the connected set, and its record (with
`timeout_seen` cleared and `reconnects` reset by the event handler)
reappears in the unconnected set keyed by the descriptor `create_cb`
returned. -/
theorem C7_read_false_reconnects_once (s : LState) (f newf : Nat) (obj : Chan)
    (now : ℚ) (hf : dlookup s.channels f = some obj) :
    (handle_event s f false true (Res.ok false) (Res.ok newf) now).2 = 1 ∧
    dlookup (handle_event s f false true (Res.ok false) (Res.ok newf) now).1.channels
      f = none ∧
    dlookup (handle_event s f false true (Res.ok false) (Res.ok newf) now).1.unconnected
      newf = some { obj with timeout_seen := false, reconnects := 0 } := by
  refine ⟨?_, ?_, ?_⟩ <;>
    simp [handle_event, prepare_reconnect, hf, dlookup_dinsert_self,
      dlookup_derase_self]

/-- C7 witness: the theorem applied to a concrete state. -/
theorem C7_witness :
    dlookup (handle_event
        { channels := [(5, { read_time := 3, timeout_seen := true, reconnects := 2 })],
          unconnected := [], add_channels := [], del_channels := [],
          epoll := [5], timeout := 1 }
        5 false true (Res.ok false) (Res.ok 7) 4).1.unconnected 7 =
      some { read_time := 3, timeout_seen := false, reconnects := 0 } :=
  (C7_read_false_reconnects_once
    { channels := [(5, { read_time := 3, timeout_seen := true, reconnects := 2 })],
      unconnected := [], add_channels := [], del_channels := [],
      epoll := [5], timeout := 1 }
    5 7 { read_time := 3, timeout_seen := true, reconnects := 2 } 4
    (by norm_num [dlookup])).2.2

/-! ### Claim C8 -/

/-- C8: when `create_cb` raises during a reconnect transition, the
exception is caught (the function returns normally, having performed the
single `create_cb` call) and the channel's record ends up in neither the
connected set (it was popped) nor the unconnected set (which is left
exactly as it was); the pending-add map and every other channel's
connected-set record are unchanged. -/
theorem C8_create_exception_drops_channel (s : LState) (f : Nat) (obj : Chan)
    (hf : dlookup s.channels f = some obj) :
    dlookup (prepare_reconnect s f Res.raises).1.channels f = none ∧
    (prepare_reconnect s f Res.raises).1.unconnected = s.unconnected ∧
    (prepare_reconnect s f Res.raises).1.add_channels = s.add_channels ∧
    (∀ g, g ≠ f → dlookup (prepare_reconnect s f Res.raises).1.channels g =
      dlookup s.channels g) ∧
    (prepare_reconnect s f Res.raises).2 = 1 := by
  refine ⟨?_, ?_, ?_, ?_, ?_⟩ <;>
    simp [prepare_reconnect, hf, dlookup_derase_self]
  intro g hg
  exact dlookup_derase_ne _ _ _ hg

/-- C8 witness: the theorem applied to a concrete state. -/
theorem C8_witness :
    dlookup (prepare_reconnect
        { channels := [(5, {}), (6, {})], unconnected := [], add_channels := [],
          del_channels := [], epoll := [5, 6], timeout := 1 }
        5 Res.raises).1.channels 5 = none :=
  (C8_create_exception_drops_channel
    { channels := [(5, {}), (6, {})], unconnected := [], add_channels := [],
      del_channels := [], epoll := [5, 6], timeout := 1 }
    5 {} (by norm_num [dlookup])).1

/-! ### Claim C10 -/

/-- C10: on a dispatched EPOLLIN event for a connected descriptor, the
handler sets `reconnects := 0` and `timeout_seen := false` before calling
`read_cb`, so whichever way `read_cb` ends (true, false with a successful
`create_cb`, or an exception), the surviving record carries the reset
fields. -/
theorem C10_fields_reset_before_read (s : LState) (f : Nat) (obj : Chan)
    (readRes : Res Bool) (createRes : Res Nat) (now : ℚ)
    (hf : dlookup s.channels f = some obj) :
    (readRes = Res.ok true →
      dlookup (handle_event s f false true readRes createRes now).1.channels f =
        some { obj with timeout_seen := false, reconnects := 0, read_time := now }) ∧
    (readRes = Res.raises →
      dlookup (handle_event s f false true readRes createRes now).1.channels f =
        some { obj with timeout_seen := false, reconnects := 0 }) ∧
    (∀ newf, readRes = Res.ok false → createRes = Res.ok newf →
      dlookup (handle_event s f false true readRes createRes now).1.unconnected newf =
        some { obj with timeout_seen := false, reconnects := 0 }) := by
  refine ⟨?_, ?_, ?_⟩
  · intro h
    subst h
    simp [handle_event, hf, dlookup_dinsert_self]
  · intro h
    subst h
    simp [handle_event, hf, dlookup_dinsert_self]
  · intro newf h1 h2
    subst h1
    subst h2
    simp [handle_event, prepare_reconnect, hf, dlookup_dinsert_self]

/-- C10 witness: the theorem applied to a concrete state. -/
theorem C10_witness :
    dlookup (handle_event
        { channels := [(5, { read_time := 2, timeout_seen := true, reconnects := 4 })],
          unconnected := [], add_channels := [], del_channels := [],
          epoll := [5], timeout := 1 }
        5 false true (Res.ok true) (Res.ok 7) 9).1.channels 5 =
      some { read_time := 9, timeout_seen := false, reconnects := 0 } :=
  (C10_fields_reset_before_read
    { channels := [(5, { read_time := 2, timeout_seen := true, reconnects := 4 })],
      unconnected := [], add_channels := [], del_channels := [],
      epoll := [5], timeout := 1 }
    5 { read_time := 2, timeout_seen := true, reconnects := 4 }
    (Res.ok true) (Res.ok 7) 9 (by norm_num [dlookup])).1 rfl

/-! ### Claim C3 -/

/-- C3 (amended): `_update_channels` first moves every pending-add entry
into the unconnected set, then removes every pending-delete descriptor
from whichever of the pending-add map, the unconnected set and the
connected set currently holds it; the OS readiness (epoll) registration
is NOT touched — no descriptor is unregistered from epoll.  Afterwards
both pending queues are empty. -/
theorem C3_update_channels_spec (s : LState) (hnd : dNodup s.add_channels) :
    (∀ f o, dlookup s.add_channels f = some o → f ∉ s.del_channels →
      dlookup (update_channels s).unconnected f = some o) ∧
    (∀ f o, dlookup s.unconnected f = some o → f ∉ s.del_channels →
      f ∉ dkeys s.add_channels →
      dlookup (update_channels s).unconnected f = some o) ∧
    (∀ f o, dlookup s.channels f = some o → f ∉ s.del_channels →
      dlookup (update_channels s).channels f = some o) ∧
    (∀ f, f ∈ s.del_channels →
      dlookup (update_channels s).add_channels f = none ∧
      dlookup (update_channels s).unconnected f = none ∧
      dlookup (update_channels s).channels f = none) ∧
    (update_channels s).epoll = s.epoll ∧
    (update_channels s).add_channels = [] ∧
    (update_channels s).del_channels = [] := by
  refine ⟨?_, ?_, ?_, ?_, rfl, ?_, rfl⟩
  · intro f o hf hdel
    show dlookup (s.del_channels.foldl derase
      (s.add_channels.foldl (fun u p => dinsert u p.1 p.2) s.unconnected)) f = some o
    rw [dlookup_foldl_derase, if_neg hdel]
    exact dlookup_foldl_dinsert_of_mem s.add_channels s.unconnected f o hnd
      (dlookup_mem _ _ _ hf)
  · intro f o hf hdel hadd
    show dlookup (s.del_channels.foldl derase
      (s.add_channels.foldl (fun u p => dinsert u p.1 p.2) s.unconnected)) f = some o
    rw [dlookup_foldl_derase, if_neg hdel,
      dlookup_foldl_dinsert_of_not_mem s.add_channels s.unconnected f hadd]
    exact hf
  · intro f o hf hdel
    show dlookup (s.del_channels.foldl derase s.channels) f = some o
    rw [dlookup_foldl_derase, if_neg hdel]
    exact hf
  · intro f hdel
    refine ⟨?_, ?_, ?_⟩
    · show dlookup (s.del_channels.foldl derase []) f = none
      rw [dlookup_foldl_derase]
      simp [dlookup]
    · show dlookup (s.del_channels.foldl derase
        (s.add_channels.foldl (fun u p => dinsert u p.1 p.2) s.unconnected)) f = none
      rw [dlookup_foldl_derase, if_pos hdel]
    · show dlookup (s.del_channels.foldl derase s.channels) f = none
      rw [dlookup_foldl_derase, if_pos hdel]
  · show (s.del_channels.foldl derase []) = []
    induction s.del_channels with
    | nil => rfl
    | cons a rest ih => exact ih

/-- C3 counterexample: deleting descriptor 5, which is registered with
epoll, leaves it registered — `_do_del_channels` never calls
`epoll.unregister`, contrary to the claim's "also removed from the OS
readiness (epoll) registration". -/
theorem C3_counterexample :
    (update_channels
        { channels := [(5, {})], unconnected := [], add_channels := [],
          del_channels := [5], epoll := [5], timeout := 1 }).epoll = [5] ∧
    dlookup (update_channels
        { channels := [(5, {})], unconnected := [], add_channels := [],
          del_channels := [5], epoll := [5], timeout := 1 }).channels 5 = none := by
  constructor
  · norm_num [update_channels, do_add_channels, do_del_channels]
  · norm_num [update_channels, do_add_channels, do_del_channels, derase, dlookup]

/-- C3 witness: the amended theorem applied to a concrete state. -/
theorem C3_witness :
    dlookup (update_channels
        { channels := [], unconnected := [], add_channels := [(2, {})],
          del_channels := [9], epoll := [], timeout := 1 }).unconnected 2 =
      some {} :=
  (C3_update_channels_spec
    { channels := [], unconnected := [], add_channels := [(2, {})],
      del_channels := [9], epoll := [], timeout := 1 }
    (by simp [dNodup, dkeys])).1 2 {} (by norm_num [dlookup]) (by norm_num)

/-! ### Claim C6 -/

theorem dmem_of_mem_dkeys (d : Dict) (k : Nat) (h : k ∈ dkeys d) :
    dmem d k = true := by
  induction d with
  | nil => simp [dkeys] at h
  | cons p rest ih =>
    obtain ⟨k', v⟩ := p
    by_cases hk : k' = k
    · simp [dmem, dlookup, hk]
    · have hr : k ∈ dkeys rest := by
        simp [dkeys] at h ⊢
        rcases h with h | h
        · exact absurd h.symm hk
        · exact h
      simpa [dmem, dlookup, hk] using ih hr

theorem dmem_eq_decide (d : Dict) (k : Nat) :
    dmem d k = decide (k ∈ dkeys d) := by
  by_cases h : k ∈ dkeys d
  · simp [h, dmem_of_mem_dkeys d k h]
  · simp [h, dmem, dlookup_eq_none_of_not_mem d k h]

theorem dmem_foldl_derase (L : List Nat) (d : Dict) (k : Nat) :
    dmem (L.foldl derase d) k = (!decide (k ∈ L) && dmem d k) := by
  unfold dmem
  rw [dlookup_foldl_derase]
  by_cases h : k ∈ L <;> simp [h]

theorem atMostOne_true_mid (a c : Bool) (h : AtMostOne a true c) :
    a = false ∧ c = false := by
  cases a <;> cases c <;> simp_all [AtMostOne]

theorem atMostOne_shift (a b c : Bool) (h : AtMostOne a b c) :
    AtMostOne a (b || c) false := by
  cases a <;> cases b <;> cases c <;> simp_all [AtMostOne]

theorem atMostOne_first_false (a b c : Bool) (h : AtMostOne a b c) :
    AtMostOne false b c := by
  cases a <;> cases b <;> cases c <;> simp_all [AtMostOne]

theorem do_add_channels_disjoint (s : LState) (hd : Disjoint3 s) :
    Disjoint3 (do_add_channels s) := by
  intro g
  have hg := hd g
  have h1 : dmem (do_add_channels s).channels g = dmem s.channels g := rfl
  have h2 : dmem (do_add_channels s).unconnected g =
      (dmem s.unconnected g || dmem s.add_channels g) := by
    show dmem (s.add_channels.foldl (fun u p => dinsert u p.1 p.2) s.unconnected) g = _
    rw [dmem_foldl_dinsert, dmem_eq_decide s.add_channels g]
  have h3 : dmem (do_add_channels s).add_channels g = false := rfl
  rw [h1, h2, h3]
  exact atMostOne_shift _ _ _ hg

theorem do_del_channels_disjoint (s : LState) (hd : Disjoint3 s) :
    Disjoint3 (do_del_channels s) := by
  intro g
  have hg := hd g
  have h1 : dmem (do_del_channels s).channels g =
      (!decide (g ∈ s.del_channels) && dmem s.channels g) :=
    dmem_foldl_derase _ _ _
  have h2 : dmem (do_del_channels s).unconnected g =
      (!decide (g ∈ s.del_channels) && dmem s.unconnected g) :=
    dmem_foldl_derase _ _ _
  have h3 : dmem (do_del_channels s).add_channels g =
      (!decide (g ∈ s.del_channels) && dmem s.add_channels g) :=
    dmem_foldl_derase _ _ _
  rw [h1, h2, h3]
  by_cases h : g ∈ s.del_channels
  · simp [h, AtMostOne]
  · simpa [h] using hg

theorem prepare_reconnect_disjoint (s : LState) (f0 : Nat)
    (createRes : Res Nat) (hd : Disjoint3 s)
    (hfresh : ∀ nf, createRes = Res.ok nf →
      dmem s.channels nf = false ∧ dmem s.unconnected nf = false ∧
      dmem s.add_channels nf = false) :
    Disjoint3 (prepare_reconnect s f0 createRes).1 := by
  rcases hl : dlookup s.channels f0 with _ | obj
  · unfold prepare_reconnect
    rw [hl]
    exact hd
  · rcases createRes with nf | _
    · obtain ⟨hc, hu, ha⟩ := hfresh nf rfl
      have hshape : (prepare_reconnect s f0 (Res.ok nf)).1 =
          { s with channels := derase s.channels f0,
                   unconnected := dinsert s.unconnected nf
                     { obj with timeout_seen := false } } := by
        unfold prepare_reconnect
        rw [hl]
      rw [hshape]
      intro g
      have hg := hd g
      by_cases hgn : g = nf
      · subst hgn
        simp [dmem_dinsert, dmem_derase, hc, hu, ha, AtMostOne]
      · by_cases hgf : g = f0
        · subst hgf
          have hg' := atMostOne_first_false _ _ _ hg
          simpa [dmem_dinsert, dmem_derase, hgn] using hg'
        · simpa [dmem_dinsert, dmem_derase, hgn, hgf] using hg
    · have hshape : (prepare_reconnect s f0 Res.raises).1 =
          { s with channels := derase s.channels f0 } := by
        unfold prepare_reconnect
        rw [hl]
      rw [hshape]
      intro g
      have hg := hd g
      by_cases hgf : g = f0
      · subst hgf
        have hg' := atMostOne_first_false _ _ _ hg
        simpa [dmem_derase] using hg'
      · simpa [dmem_derase, hgf] using hg

theorem unconn_step_disjoint (tmo now : ℚ) (cres : Res Bool) (tA : ℚ)
    (f : Nat) (obj : Chan) (s : LState)
    (hd : Disjoint3 s) (hf : dmem s.unconnected f = true) :
    Disjoint3 (unconn_step tmo now cres tA f obj s) := by
  intro g
  have hg := hd g
  by_cases hc : obj.cooldown ∧ now - obj.cooldown_time < tmo
  · simpa [unconn_step, hc] using hg
  · by_cases hgf : g = f
    · subst hgf
      have hg' := hg
      rw [hf] at hg'
      obtain ⟨hcf, haf⟩ := atMostOne_true_mid _ _ hg'
      rcases cres with b | _
      · rcases b with _ | _
        · simp [unconn_step, hc, dmem_dinsert, hcf, haf, AtMostOne]
        · simp [unconn_step, hc, dmem_dinsert, dmem_derase, hcf, haf, AtMostOne]
      · simp [unconn_step, hc, dmem_dinsert, hcf, haf, AtMostOne]
    · rcases cres with b | _
      · rcases b with _ | _
        · simpa [unconn_step, hc, dmem_dinsert, dmem_derase, hgf] using hg
        · simpa [unconn_step, hc, dmem_dinsert, dmem_derase, hgf] using hg
      · simpa [unconn_step, hc, dmem_dinsert, hgf] using hg

theorem handle_unconnected_go_disjoint (tmo now : ℚ) (cres : Nat → Res Bool)
    (tAt : Nat → ℚ) :
    ∀ (L : List (Nat × Chan)) (s : LState), Disjoint3 s →
      (∀ p ∈ L, dmem s.unconnected p.1 = true) → (dkeys L).Nodup →
      Disjoint3 (handle_unconnected_go tmo now cres tAt L s) := by
  intro L
  induction L with
  | nil =>
    intro s hd _ _
    exact hd
  | cons p rest ih =>
    intro s hd hmem hnd
    obtain ⟨f, obj⟩ := p
    have hf : dmem s.unconnected f = true := hmem (f, obj) (List.mem_cons_self _ _)
    apply ih
    · exact unconn_step_disjoint tmo now (cres f) (tAt f) f obj s hd hf
    · intro q hq
      have hqf : q.1 ≠ f := by
        intro he
        have hm : f ∈ dkeys rest := he ▸ List.mem_map.mpr ⟨q, hq, rfl⟩
        exact (List.nodup_cons.mp (show (f :: dkeys rest).Nodup from hnd)).1 hm
      have hpre :=
        (unconn_step_lookup_ne tmo now (cres f) (tAt f) f obj s q.1 (Ne.symm hqf)).1
      have h2 : dmem (unconn_step tmo now (cres f) (tAt f) f obj s).unconnected q.1 =
          dmem s.unconnected q.1 := by
        unfold dmem
        rw [hpre]
      rw [h2]
      exact hmem q (List.mem_cons_of_mem _ hq)
    · exact (List.nodup_cons.mp (show (f :: dkeys rest).Nodup from hnd)).2

/-- C6: under the freshness precondition on descriptors returned by
`create_cb`, each loop operation — pending-add promotion
(`_do_add_channels`), pending-delete removal (`_do_del_channels`), the
connect-promotion sweep (`_handle_unconnected`), and the reconnect
transition (`_prepare_reconnect`) — preserves the registry invariant that
a descriptor key exists in at most one of the connected set, the
unconnected set and the pending-add map. -/
theorem C6_registry_invariant_preserved (s : LState) (now : ℚ)
    (cres : Nat → Res Bool) (tAt : Nat → ℚ) (f0 : Nat) (createRes : Res Nat)
    (hd : Disjoint3 s) :
    Disjoint3 (do_add_channels s) ∧
    Disjoint3 (do_del_channels s) ∧
    (dNodup s.unconnected → Disjoint3 (handle_unconnected s now cres tAt)) ∧
    ((∀ nf, createRes = Res.ok nf →
        dmem s.channels nf = false ∧ dmem s.unconnected nf = false ∧
        dmem s.add_channels nf = false) →
      Disjoint3 (prepare_reconnect s f0 createRes).1) := by
  refine ⟨do_add_channels_disjoint s hd, do_del_channels_disjoint s hd, ?_, ?_⟩
  · intro hnd
    exact handle_unconnected_go_disjoint s.timeout now cres tAt s.unconnected s hd
      (fun p hp => dmem_of_mem_dkeys _ _ (List.mem_map.mpr ⟨p, hp, rfl⟩)) hnd
  · intro hfresh
    exact prepare_reconnect_disjoint s f0 createRes hd hfresh

/-- C6 witness: the theorem applied to a concrete state, extracting the
reconnect-transition conjunct with a fresh descriptor. -/
theorem C6_witness :
    Disjoint3 (prepare_reconnect
        { channels := [(1, {})], unconnected := [], add_channels := [],
          del_channels := [], epoll := [1], timeout := 1 }
        1 (Res.ok 7)).1 :=
  (C6_registry_invariant_preserved
    { channels := [(1, {})], unconnected := [], add_channels := [],
      del_channels := [], epoll := [1], timeout := 1 }
    0 (fun _ => Res.ok true) (fun _ => 0) 1 (Res.ok 7)
    (by
      intro f
      by_cases h : 1 = f <;>
        simp [AtMostOne, dmem, dlookup, h])).2.2.2
    (by
      intro nf h
      cases h
      exact ⟨rfl, rfl, rfl⟩)

/-! ### Claim C5 -/

theorem noIntrPollGo_args_head (e : Option ℚ) (tm : ℚ) (ev : PollEv) (tN : ℚ)
    (rest : List (PollEv × ℚ)) :
    (noIntrPollGo e tm ((ev, tN) :: rest)).1.head? = some tm := by
  rcases ev with v | en
  · simp [noIntrPollGo]
  · by_cases hen : en = EINTR
    · subst hen
      simp [noIntrPollGo]
    · simp [noIntrPollGo, hen]

theorem noIntrPollGo_error (e : Option ℚ) :
    ∀ (pre : List (PollEv × ℚ)) (tm : ℚ),
      (∀ q ∈ pre, q.1 = PollEv.ioerr EINTR) →
      ∀ (en : Nat) (tN : ℚ) (rest : List (PollEv × ℚ)), en ≠ EINTR →
        (noIntrPollGo e tm (pre ++ (PollEv.ioerr en, tN) :: rest)).2 =
          some (Except.error en) := by
  intro pre
  induction pre with
  | nil =>
    intro tm _ en tN rest hen
    simp [noIntrPollGo, hen]
  | cons q pre ih =>
    intro tm hall en tN rest hen
    obtain ⟨ev, tq⟩ := q
    have hq : ev = PollEv.ioerr EINTR := hall (ev, tq) (List.mem_cons_self _ _)
    subst hq
    simp only [List.cons_append, noIntrPollGo, ne_eq, not_true_eq_false,
      if_false]
    simpa using ih _ (fun q hq => hall q (List.mem_cons_of_mem _ hq)) en tN rest hen

theorem noIntrPollGo_success (e : Option ℚ) :
    ∀ (pre : List (PollEv × ℚ)) (tm : ℚ),
      (∀ q ∈ pre, q.1 = PollEv.ioerr EINTR) →
      ∀ (v : Nat) (tN : ℚ) (rest : List (PollEv × ℚ)),
        (noIntrPollGo e tm (pre ++ (PollEv.ok v, tN) :: rest)).2 =
          some (Except.ok v) := by
  intro pre
  induction pre with
  | nil =>
    intro tm _ v tN rest
    simp [noIntrPollGo]
  | cons q pre ih =>
    intro tm hall v tN rest
    obtain ⟨ev, tq⟩ := q
    have hq : ev = PollEv.ioerr EINTR := hall (ev, tq) (List.mem_cons_self _ _)
    subst hq
    simp only [List.cons_append, noIntrPollGo, ne_eq, not_true_eq_false,
      if_false]
    simpa using ih _ (fun q hq => hall q (List.mem_cons_of_mem _ hq)) v tN rest

theorem noIntrPollGo_args_le (d b : ℚ) :
    ∀ (trace : List (PollEv × ℚ)) (tm : ℚ), tm ≤ b →
      (∀ q ∈ trace, max 0 (d - q.2) ≤ b) →
      ∀ x ∈ (noIntrPollGo (some d) tm trace).1, x ≤ b := by
  intro trace
  induction trace with
  | nil =>
    intro tm htm _ x hx
    simp [noIntrPollGo] at hx
  | cons q rest ih =>
    intro tm htm hall x hx
    obtain ⟨ev, tq⟩ := q
    rcases ev with v | en
    · simp [noIntrPollGo] at hx
      exact hx ▸ htm
    · by_cases hen : en = EINTR
      · subst hen
        simp only [noIntrPollGo, ne_eq, not_true_eq_false, if_false] at hx
        rcases List.mem_cons.mp hx with rfl | hx'
        · exact htm
        · exact ih (max 0 (d - tq))
            (hall (PollEv.ioerr EINTR, tq) (List.mem_cons_self _ _))
            (fun q hq => hall q (List.mem_cons_of_mem _ hq)) x hx'
      · simp [noIntrPollGo, hen] at hx
        exact hx ▸ htm

theorem noIntrPollGo_args_const :
    ∀ (trace : List (PollEv × ℚ)) (tm : ℚ) (x : ℚ),
      x ∈ (noIntrPollGo none tm trace).1 → x = tm := by
  intro trace
  induction trace with
  | nil =>
    intro tm x hx
    simp [noIntrPollGo] at hx
  | cons q rest ih =>
    intro tm x hx
    obtain ⟨ev, tq⟩ := q
    rcases ev with v | en
    · simpa [noIntrPollGo] using hx
    · by_cases hen : en = EINTR
      · subst hen
        simp only [noIntrPollGo, ne_eq, not_true_eq_false, if_false] at hx
        rcases List.mem_cons.mp hx with rfl | hx'
        · rfl
        · exact ih tm x hx'
      · simpa [noIntrPollGo, hen] using hx

theorem noIntrPollGo_next_arg (d : ℚ) :
    ∀ (trace : List (PollEv × ℚ)) (tm : ℚ) (i : Nat),
      i + 1 < (noIntrPollGo (some d) tm trace).1.length →
      ∃ tN, trace.get? i = some (PollEv.ioerr EINTR, tN) ∧
        (noIntrPollGo (some d) tm trace).1.get? (i + 1) =
          some (max 0 (d - tN)) := by
  intro trace
  induction trace with
  | nil =>
    intro tm i h
    simp [noIntrPollGo] at h
  | cons q rest ih =>
    intro tm i h
    obtain ⟨ev, tq⟩ := q
    rcases ev with v | en
    · simp [noIntrPollGo] at h
    · by_cases hen : en = EINTR
      · subst hen
        simp only [noIntrPollGo, ne_eq, not_true_eq_false, if_false] at h ⊢
        rcases i with _ | j
        · refine ⟨tq, rfl, ?_⟩
          simp only [List.length_cons] at h
          have hlen : 0 < (noIntrPollGo (some d) (max 0 (d - tq)) rest).1.length := by
            omega
          rcases hrest : rest with _ | ⟨q2, rest2⟩
          · rw [hrest] at hlen
            simp [noIntrPollGo] at hlen
          · obtain ⟨ev2, t2⟩ := q2
            have := noIntrPollGo_args_head (some d) (max 0 (d - tq)) ev2 t2 rest2
            simpa [List.get?_cons_succ, List.head?_eq_getElem?,
              List.get?_eq_getElem?] using this
        · simp only [List.length_cons] at h
          have hj : j + 1 < (noIntrPollGo (some d) (max 0 (d - tq)) rest).1.length := by
            omega
          obtain ⟨tN, h1, h2⟩ := ih (max 0 (d - tq)) j hj
          exact ⟨tN, h1, h2⟩
      · simp [noIntrPollGo, hen] at h

/-- C5: for every `NoIntrPoll` call at time `t0` with timeout `t` and a
trace of `pollfun` outcomes: (1) a normal return after any run of EINTR
interruptions is returned to the caller; (2) a non-EINTR error after any
run of EINTR interruptions propagates unchanged; (3) with `t ≥ 0`, the
timeout passed right after the i-th EINTR equals
`max 0 (t0 + t - now_i)` where `now_i` is the wall-clock reading taken
when recomputing; (4) with `t ≥ 0` and a clock that never runs before
`t0`, no timeout argument ever exceeds the original budget `t`; (5) with
`t < 0`, every retry passes the same indefinite timeout `t`. -/
theorem C5_NoIntrPoll_spec (t0 t : ℚ) (trace : List (PollEv × ℚ)) :
    (∀ pre v tN rest, trace = pre ++ (PollEv.ok v, tN) :: rest →
      (∀ q ∈ pre, q.1 = PollEv.ioerr EINTR) →
      (NoIntrPoll t0 t trace).2 = some (Except.ok v)) ∧
    (∀ pre en tN rest, trace = pre ++ (PollEv.ioerr en, tN) :: rest →
      (∀ q ∈ pre, q.1 = PollEv.ioerr EINTR) → en ≠ EINTR →
      (NoIntrPoll t0 t trace).2 = some (Except.error en)) ∧
    (0 ≤ t → ∀ i, i + 1 < (NoIntrPoll t0 t trace).1.length →
      ∃ tN, trace.get? i = some (PollEv.ioerr EINTR, tN) ∧
        (NoIntrPoll t0 t trace).1.get? (i + 1) =
          some (max 0 (t0 + t - tN))) ∧
    (0 ≤ t → (∀ q ∈ trace, t0 ≤ q.2) →
      ∀ x ∈ (NoIntrPoll t0 t trace).1, x ≤ t) ∧
    (t < 0 → ∀ x ∈ (NoIntrPoll t0 t trace).1, x = t) := by
  refine ⟨?_, ?_, ?_, ?_, ?_⟩
  · intro pre v tN rest htr hpre
    subst htr
    exact noIntrPollGo_success _ pre t hpre v tN rest
  · intro pre en tN rest htr hpre hen
    subst htr
    exact noIntrPollGo_error _ pre t hpre en tN rest hen
  · intro ht i hi
    rw [NoIntrPoll, if_neg (not_lt.mpr ht)] at hi ⊢
    exact noIntrPollGo_next_arg (t0 + t) trace t i hi
  · intro ht hclock x hx
    rw [NoIntrPoll, if_neg (not_lt.mpr ht)] at hx
    refine noIntrPollGo_args_le (t0 + t) t trace t le_rfl ?_ x hx
    intro q hq
    have h1 : t0 + t - q.2 ≤ t := by
      have := hclock q hq
      linarith
    exact max_le ht h1
  · intro ht x hx
    rw [NoIntrPoll, if_pos ht] at hx
    exact noIntrPollGo_args_const trace t x hx

/-- C5 witness: the theorem applied to a concrete trace — one EINTR at
time 1, then a successful poll: the result is returned and every timeout
argument stays within the original 3-unit budget. -/
theorem C5_witness :
    (NoIntrPoll 0 3 [(PollEv.ioerr EINTR, 1), (PollEv.ok 2, 2)]).2 =
      some (Except.ok 2) ∧
    (∀ x ∈ (NoIntrPoll 0 3 [(PollEv.ioerr EINTR, 1), (PollEv.ok 2, 2)]).1,
      x ≤ 3) :=
  ⟨(C5_NoIntrPoll_spec 0 3 [(PollEv.ioerr EINTR, 1), (PollEv.ok 2, 2)]).1
      [(PollEv.ioerr EINTR, 1)] 2 2 [] rfl
      (by
        intro q hq
        simp at hq
        rw [hq]),
    (C5_NoIntrPoll_spec 0 3 [(PollEv.ioerr EINTR, 1), (PollEv.ok 2, 2)]).2.2.2.1
      (by norm_num)
      (by
        intro q hq
        rcases List.mem_cons.mp hq with rfl | hq'
        · norm_num
        · rcases List.mem_cons.mp hq' with rfl | hq''
          · norm_num
          · simp at hq'')⟩

end VmChannels
